import Mathlib

/-!
Verification of the chunked file downloader (`main.go`) against its
natural-language specification.

The Go program downloads a remote file in `NUM_PARTS` byte-range chunks,
retrying each chunk up to `MAX_RETRIES` times, and concatenates the chunk
files into the final output.  Below, each relevant Go function is shallowly
embedded as a Lean definition:

* byte contents are `List Nat` (one `Nat` per byte),
* Go `int64` arithmetic is `Int` with truncating division `Int.tdiv`
  (Go's `/` truncates toward zero; all values involved stay far below
  2^63, and the planner's intermediate `start + partSize - 1` can be
  negative, which `Int` represents exactly like Go's `int64` does),
* network and filesystem effects are passed in explicitly: the outcome of
  each HTTP attempt, and the success of each file operation, are inputs.
-/

namespace Downloader

/-- Go constant `NUM_PARTS = 4` (main.go line 31). -/
def NUM_PARTS : Nat := 4

/-- Go constant `MAX_RETRIES = 3` (main.go line 32). -/
def MAX_RETRIES : Nat := 3

/-!
## Range planner (`downloadFile`, main.go lines 267-285)

The Go loop computes `partSize := totalSize / NUM_PARTS` and, for each
`i` in `0 .. NUM_PARTS-1`, the pair `(start, end)` with
`start = i * partSize` and `end = start + partSize - 1`, except that the
last part ends at `totalSize - 1`.  We embed the loop body as `planRange`
and the whole loop as `planRanges`, generalising the constant `NUM_PARTS`
to a parameter `n` (the code instantiates `n = NUM_PARTS`).
-/

/-- One iteration of the range-planning loop: the `(start, end)` pair the
Go code stores in `ranges[i]`. -/
def planRange (totalSize : Int) (n : Nat) (i : Nat) : Int × Int :=
  let partSize : Int := totalSize.tdiv (n : Int)
  let start : Int := (i : Int) * partSize
  let e : Int := if i = n - 1 then totalSize - 1 else start + partSize - 1
  (start, e)

/-- The whole planning loop: the `ranges` array, in index order. -/
def planRanges (totalSize : Int) (n : Nat) : List (Int × Int) :=
  (List.range n).map (planRange totalSize n)

/-- The start of range `i` is `i * partSize` in every case. -/
lemma planRange_fst (totalSize : Int) (n i : Nat) :
    (planRange totalSize n i).1 = (i : Int) * totalSize.tdiv (n : Int) := rfl

/-- For a non-final range, the end is `start + partSize - 1`. -/
lemma planRange_snd_of_ne (totalSize : Int) (n i : Nat) (h : i ≠ n - 1) :
    (planRange totalSize n i).2 =
      (i : Int) * totalSize.tdiv (n : Int) + totalSize.tdiv (n : Int) - 1 := by
  simp [planRange, h]

/-- For the final range, the end is `totalSize - 1`. -/
lemma planRange_snd_last (totalSize : Int) (n : Nat) :
    (planRange totalSize n (n - 1)).2 = totalSize - 1 := by
  simp [planRange]

/-- Adjacent planned ranges are contiguous: each non-final range's end plus
one is the next range's start. -/
lemma planRange_contiguous (totalSize : Int) (n : Nat) (i : Nat)
    (h : i + 1 < n) :
    (planRange totalSize n i).2 + 1 = (planRange totalSize n (i + 1)).1 := by
  have hi : i ≠ n - 1 := by omega
  rw [planRange_snd_of_ne totalSize n i hi, planRange_fst]
  push_cast
  ring

/-- The lengths of the planned ranges sum to `totalSize`. -/
lemma planRange_sum (totalSize : Int) (n : Nat) (hn : 1 ≤ n) :
    (∑ i in Finset.range n,
      ((planRange totalSize n i).2 - (planRange totalSize n i).1 + 1))
      = totalSize := by
  obtain ⟨m, rfl⟩ : ∃ m, n = m + 1 := ⟨n - 1, by omega⟩
  rw [Finset.sum_range_succ]
  have hlast : (planRange totalSize (m + 1) m).2
      - (planRange totalSize (m + 1) m).1 + 1
      = totalSize - (m : Int) * totalSize.tdiv ((m : Int) + 1) := by
    have : m = (m + 1) - 1 := by omega
    rw [planRange_fst]
    rw [show planRange totalSize (m + 1) m = planRange totalSize (m + 1) ((m + 1) - 1) by rw [← this]]
    rw [planRange_snd_last]
    push_cast
    ring
  have hbody : ∀ i ∈ Finset.range m,
      (planRange totalSize (m + 1) i).2 - (planRange totalSize (m + 1) i).1 + 1
        = totalSize.tdiv ((m : Int) + 1) := by
    intro i hi
    have hi' : i ≠ (m + 1) - 1 := by
      simp only [Finset.mem_range] at hi
      omega
    rw [planRange_snd_of_ne totalSize (m + 1) i hi', planRange_fst]
    push_cast
    ring
  rw [Finset.sum_congr rfl hbody, Finset.sum_const, Finset.card_range] at *
  rw [hlast]
  ring

/-- Planned ranges are pairwise disjoint: no byte offset lies in two
distinct ranges. -/
lemma planRange_disjoint (totalSize : Int) (n : Nat)
    (hT : 0 ≤ totalSize) (i j : Nat) (hij : i < j) (hj : j < n) (x : Int)
    (_h1 : (planRange totalSize n i).1 ≤ x)
    (h2 : x ≤ (planRange totalSize n i).2) :
    ¬ ((planRange totalSize n j).1 ≤ x ∧ x ≤ (planRange totalSize n j).2) := by
  rintro ⟨h3, _⟩
  have hp : 0 ≤ totalSize.tdiv (n : Int) :=
    Int.tdiv_nonneg hT (by exact_mod_cast Nat.zero_le n)
  have hi' : i ≠ n - 1 := by omega
  rw [planRange_snd_of_ne totalSize n i hi'] at h2
  rw [planRange_fst] at h3
  have hmul : ((i : Int) + 1) * totalSize.tdiv (n : Int)
      ≤ (j : Int) * totalSize.tdiv (n : Int) := by
    apply mul_le_mul_of_nonneg_right _ hp
    exact_mod_cast hij
  nlinarith

/-- **C2.** Range planning: `base = totalSize / n` by truncating integer
division; range `i` (0-indexed) spans `[i*base, (i+1)*base - 1]` for
`i < n-1`, and the final range spans `[(n-1)*base, totalSize-1]`; the `n`
ranges are contiguous, pairwise non-overlapping, start at `0`, end at
`totalSize - 1`, and their lengths sum exactly to `totalSize`. -/
theorem planRanges_spec (totalSize : Int) (n : Nat)
    (hT : 0 < totalSize) (hn : 1 ≤ n) :
    (planRanges totalSize n).length = n
  ∧ (∀ i, i < n - 1 → planRange totalSize n i =
      ((i : Int) * totalSize.tdiv (n : Int),
        ((i : Int) + 1) * totalSize.tdiv (n : Int) - 1))
  ∧ planRange totalSize n (n - 1) =
      (((n : Int) - 1) * totalSize.tdiv (n : Int), totalSize - 1)
  ∧ (planRange totalSize n 0).1 = 0
  ∧ (planRange totalSize n (n - 1)).2 = totalSize - 1
  ∧ (∀ i, i + 1 < n →
      (planRange totalSize n i).2 + 1 = (planRange totalSize n (i + 1)).1)
  ∧ (∀ i j, i < j → j < n → ∀ x : Int,
      (planRange totalSize n i).1 ≤ x → x ≤ (planRange totalSize n i).2 →
      ¬ ((planRange totalSize n j).1 ≤ x ∧ x ≤ (planRange totalSize n j).2))
  ∧ (∑ i in Finset.range n,
      ((planRange totalSize n i).2 - (planRange totalSize n i).1 + 1))
      = totalSize := by
  refine ⟨by simp [planRanges], ?_, ?_, by simp [planRange_fst], planRange_snd_last totalSize n,
    planRange_contiguous totalSize n,
    fun i j hij hj x h1 h2 => planRange_disjoint totalSize n (le_of_lt hT) i j hij hj x h1 h2,
    planRange_sum totalSize n hn⟩
  · intro i hi
    have hi' : i ≠ n - 1 := by omega
    have := planRange_snd_of_ne totalSize n i hi'
    have hfst := planRange_fst totalSize n i
    ext
    · simpa using hfst
    · simp only [this]
      ring
  · have hfst := planRange_fst totalSize n (n - 1)
    have hsnd := planRange_snd_last totalSize n
    ext
    · rw [hfst]
      congr 1
      omega
    · simpa using hsnd

/-- Witness for `planRanges_spec` at `totalSize = 101`, `n = 4` (the
spec's own remainder-placement example). -/
theorem planRanges_spec_witness :
    planRanges 101 4 = [(0, 24), (25, 49), (50, 74), (75, 100)]
  ∧ (∑ i in Finset.range 4,
      ((planRange 101 4 i).2 - (planRange 101 4 i).1 + 1)) = 101 :=
  ⟨by decide, (planRanges_spec 101 4 (by decide) (by decide)).2.2.2.2.2.2.2⟩

/-- **C3.** Evaluation of the planner at `totalSize = 2 < NUM_PARTS = 4`:
the code performs no clamping and returns no error; it silently produces
the degenerate ranges `[(0,-1), (0,-1), (0,-1), (0,1)]`, the first of
which has `start > end`. -/
theorem planRanges_small_file_defect :
    planRanges 2 NUM_PARTS = [(0, -1), (0, -1), (0, -1), (0, 1)]
  ∧ (planRange 2 NUM_PARTS 0).2 < (planRange 2 NUM_PARTS 0).1 := by
  exact ⟨by decide, by decide⟩

/-!
## Round-trip reassembly (`downloadPart` body write + `downloadFile`
assembly loop, main.go lines 240-248 and 313-335)

A range-honoring server replies to `Range: bytes=s-e` with exactly the
bytes `s..e` of the content (and, for a degenerate request with
`s > e` or `s < 0`, contributes no bytes).  `downloadPart` streams the
reply body unchanged into `part-<i>.tmp` (`io.Copy`, line 241), and the
assembly loop of `downloadFile` concatenates `part-1.tmp .. part-N.tmp`
in ascending index order (lines 319-335).
-/

/-- The body a range-honoring server returns for `Range: bytes=s-e`:
the inclusive slice `content[s..e]`. -/
def serveRange (content : List Nat) (s e : Int) : List Nat :=
  if 0 ≤ s ∧ s ≤ e then (content.drop s.toNat).take (e - s + 1).toNat else []

/-- The part artifacts, in ascending index order: artifact `i` holds the
range-honoring server's body for planned range `i`. -/
def fetchParts (content : List Nat) (n : Nat) : List (List Nat) :=
  (planRanges (content.length : Int) n).map fun r => serveRange content r.1 r.2

/-- The assembly loop of `downloadFile`: concatenate the part artifacts in
ascending index order. -/
def assembleParts (parts : List (List Nat)) : List Nat := parts.flatten

/-- What `downloadFile` writes to the output file when every part
succeeds against a range-honoring server. -/
def downloadOutput (content : List Nat) (n : Nat) : List Nat :=
  assembleParts (fetchParts content n)

/-- A non-final planned range fetches exactly the `base`-byte slice
starting at `i * base`, where `base = content.length / n`. -/
lemma serveRange_planned_mid (content : List Nat) (n i : Nat) (hi : i ≠ n - 1) :
    serveRange content (planRange (content.length : Int) n i).1
        (planRange (content.length : Int) n i).2
      = (content.drop (i * (content.length / n))).take (content.length / n) := by
  set base : Nat := content.length / n with hbase
  have htd : ((content.length : Int)).tdiv (n : Int) = (base : Int) :=
    (Int.ofNat_tdiv content.length n).symm
  rw [planRange_fst, planRange_snd_of_ne _ _ _ hi, htd]
  rcases Nat.eq_zero_or_pos base with h0 | hpos
  · simp [serveRange, h0]
  · have hs : (0 : Int) ≤ (i : Int) * (base : Int) := by positivity
    have hle : (i : Int) * (base : Int)
        ≤ (i : Int) * (base : Int) + (base : Int) - 1 := by
      have h1 : (1 : Int) ≤ (base : Int) := by exact_mod_cast hpos
      linarith
    rw [serveRange, if_pos ⟨hs, hle⟩]
    have hdr : ((i : Int) * (base : Int)).toNat = i * base := by
      rw [show (i : Int) * (base : Int) = ((i * base : Nat) : Int) by push_cast; ring]
      exact Int.toNat_ofNat _
    have htk : ((i : Int) * (base : Int) + (base : Int) - 1
        - (i : Int) * (base : Int) + 1).toNat = base := by
      rw [show (i : Int) * (base : Int) + (base : Int) - 1
          - (i : Int) * (base : Int) + 1 = ((base : Nat) : Int) by ring]
      exact Int.toNat_ofNat _
    rw [hdr, htk]

/-- Arithmetic helper: `mq + q ≤ L` with `1 ≤ L` and `q = 0 → mq = 0`
forces `mq < L`. -/
lemma lt_of_add_le_of_imp (L mq q : Nat) (hL : 1 ≤ L) (hsum : mq + q ≤ L)
    (h0 : q = 0 → mq = 0) : mq < L := by
  rcases Nat.eq_zero_or_pos q with h | h
  · have := h0 h
    omega
  · omega

/-- `toNat` of the inclusive length `(L-1) - k + 1` is `L - k` for `k < L`. -/
lemma toNat_tail_len (L k : Nat) (h : k < L) :
    ((L : Int) - 1 - (k : Int) + 1).toNat = L - k := by
  omega

/-- The final planned range fetches exactly the tail of the content from
`(n-1) * base` on, where `base = content.length / n`. -/
lemma serveRange_planned_last (content : List Nat) (n : Nat) (hn : 1 ≤ n) :
    serveRange content (planRange (content.length : Int) n (n - 1)).1
        (planRange (content.length : Int) n (n - 1)).2
      = content.drop ((n - 1) * (content.length / n)) := by
  obtain ⟨m, rfl⟩ : ∃ m, n = m + 1 := ⟨n - 1, by omega⟩
  have htd : ((content.length : Int)).tdiv ((m + 1 : Nat) : Int)
      = ((content.length / (m + 1) : Nat) : Int) :=
    (Int.ofNat_tdiv content.length (m + 1)).symm
  rw [planRange_fst, planRange_snd_last, htd]
  have hm : m + 1 - 1 = m := by omega
  rw [hm]
  have hcast : (m : Int) * ((content.length / (m + 1) : Nat) : Int)
      = ((m * (content.length / (m + 1)) : Nat) : Int) := by
    push_cast
    ring
  rw [hcast]
  rcases Nat.eq_zero_or_pos content.length with hzero | hLpos
  · have hc : content = [] := List.length_eq_zero.mp hzero
    subst hc
    simp [serveRange]
  · have hnb : (m + 1) * (content.length / (m + 1)) ≤ content.length := by
      calc (m + 1) * (content.length / (m + 1))
          = content.length / (m + 1) * (m + 1) := Nat.mul_comm _ _
        _ ≤ content.length := Nat.div_mul_le_self _ _
    have hexp : (m + 1) * (content.length / (m + 1))
        = m * (content.length / (m + 1)) + content.length / (m + 1) := by
      ring
    have hb0 : content.length / (m + 1) = 0 → m * (content.length / (m + 1)) = 0 := by
      intro h
      simp [h]
    have hlt : m * (content.length / (m + 1)) < content.length :=
      lt_of_add_le_of_imp _ _ _ hLpos (hexp ▸ hnb) hb0
    rw [serveRange, if_pos]
    · have htake : (((content.length : Int)) - 1
          - ((m * (content.length / (m + 1)) : Nat) : Int) + 1).toNat
          = content.length - m * (content.length / (m + 1)) :=
        toNat_tail_len _ _ hlt
      have hdropn : (((m * (content.length / (m + 1)) : Nat) : Int)).toNat
          = m * (content.length / (m + 1)) := Int.toNat_ofNat _
      rw [htake, hdropn]
      exact List.take_of_length_le (by simp)
    · constructor
      · exact_mod_cast Nat.zero_le _
      · omega

/-- Concatenating the `base`-byte chunks `0 .. m-1` of a list and then its
tail from offset `m * base` recovers the list. -/
lemma flatten_chunks (l : List Nat) (base : Nat) :
    ∀ m, (((List.range m).map fun i => (l.drop (i * base)).take base).flatten)
      ++ l.drop (m * base) = l := by
  intro m
  induction m with
  | zero => simp
  | succ k ih =>
    rw [List.range_succ, List.map_append, List.flatten_append]
    simp only [List.map_cons, List.map_nil, List.flatten_cons, List.flatten_nil,
      List.append_nil]
    rw [List.append_assoc]
    have hdd : l.drop ((k + 1) * base) = (l.drop (k * base)).drop base := by
      rw [List.drop_drop]
      congr 1
      ring
    rw [hdd, List.take_append_drop]
    exact ih

/-- **C1.** Round-trip reassembly: against a range-honoring server,
downloading with part count `n ≥ 1` and concatenating the fetched parts in
ascending index order reproduces the original bytes exactly — the
assembled output equals the content a single sequential download would
produce. -/
theorem downloadOutput_roundTrip (content : List Nat) (n : Nat) (hn : 1 ≤ n) :
    downloadOutput content n = content := by
  obtain ⟨m, rfl⟩ : ∃ m, n = m + 1 := ⟨n - 1, by omega⟩
  unfold downloadOutput fetchParts assembleParts planRanges
  rw [List.map_map, List.range_succ, List.map_append, List.flatten_append]
  simp only [List.map_cons, List.map_nil, List.flatten_cons, List.flatten_nil,
    List.append_nil, Function.comp_def]
  have hm : m + 1 - 1 = m := by omega
  have hlast := serveRange_planned_last content (m + 1) (by omega)
  rw [hm] at hlast
  rw [hlast]
  have hmid : ∀ i ∈ List.range m,
      serveRange content (planRange (content.length : Int) (m + 1) i).1
          (planRange (content.length : Int) (m + 1) i).2
        = (content.drop (i * (content.length / (m + 1)))).take
            (content.length / (m + 1)) := by
    intro i hi
    refine serveRange_planned_mid content (m + 1) i ?_
    simp only [List.mem_range] at hi
    omega
  rw [List.map_congr_left hmid]
  exact flatten_chunks content (content.length / (m + 1)) m

/-- Witness for `downloadOutput_roundTrip` at a concrete 5-byte content and
the configured part count `NUM_PARTS = 4`. -/
theorem downloadOutput_roundTrip_witness :
    (1 : Nat) ≤ NUM_PARTS
  ∧ downloadOutput [10, 20, 30, 40, 50] NUM_PARTS = [10, 20, 30, 40, 50] :=
  ⟨by decide, downloadOutput_roundTrip [10, 20, 30, 40, 50] NUM_PARTS (by decide)⟩

/-!
## Metadata resolver (`getFileSize`, main.go lines 149-176)

`getFileSize` issues a HEAD request and then inspects the status code and
the `Content-Length` header.  We embed its decision logic: `statusCode`
is the response status and `cl` the `Content-Length` header value (Go's
`Header.Get` returns `""` when the header is missing).  The transport
failure branches (request creation, `Do` error) return errors before any
header inspection and are outside this pure embedding.  `.error` below
corresponds exactly to the Go function returning a non-nil error.
-/

/-- The numeric value of a digit string, following `strconv.ParseInt`'s
base-10 accumulation: `none` if the string is empty or any character is
not a decimal digit. -/
def digitsToNat (l : List Char) : Option Nat :=
  if l = [] then none
  else if l.all (fun c => c.isDigit) then
    some (l.foldl (fun acc c => acc * 10 + (c.toNat - 48)) 0)
  else none

/-- Shallow embedding of Go `strconv.ParseInt(s, 10, 64)`: an optional
sign followed by at least one decimal digit, rejected on `int64`
overflow; `none` models a non-nil parse error. -/
def parseInt64 (s : String) : Option Int :=
  let signed : Bool × List Char :=
    match s.toList with
    | '+' :: rest => (false, rest)
    | '-' :: rest => (true, rest)
    | l => (false, l)
  match digitsToNat signed.2 with
  | none => none
  | some u =>
    if signed.1 then
      if (u : Int) ≤ 2 ^ 63 then some (-(u : Int)) else none
    else
      if (u : Int) ≤ 2 ^ 63 - 1 then some (u : Int) else none

/-- Shallow embedding of `getFileSize` (main.go lines 149-176) after the
HEAD exchange: non-200 status, a missing (empty) `Content-Length`, and an
unparseable value are errors; every parsed value is returned as the size,
with no sign or zero check. -/
def getFileSize (statusCode : Nat) (cl : String) : Except String Int :=
  if statusCode ≠ 200 then .error "server returned non-200 status"
  else if cl = "" then .error "Content-Length header is missing"
  else
    match parseInt64 cl with
    | none => .error "invalid Content-Length value"
    | some size => .ok size

/-- The pre-planning pipeline of `downloadFile` (main.go lines 260-285):
obtain the size; on failure return the wrapped error without planning; on
success plan the ranges with `NUM_PARTS` — whatever the size's sign. -/
def downloadFilePlan (statusCode : Nat) (cl : String) :
    Except String (List (Int × Int)) :=
  match getFileSize statusCode cl with
  | .error e => .error ("failed to get file size: " ++ e)
  | .ok totalSize => .ok (planRanges totalSize NUM_PARTS)

/-- **C4, counterexample.** A reported size of zero, and a negative
`Content-Length`, are accepted by `getFileSize` and flow into range
planning; neither is a terminal error. -/
theorem getFileSize_zero_not_rejected :
    getFileSize 200 "0" = .ok 0
  ∧ getFileSize 200 "-5" = .ok (-5)
  ∧ downloadFilePlan 200 "0" = .ok [(0, -1), (0, -1), (0, -1), (0, -1)] := by
  refine ⟨rfl, rfl, rfl⟩

/-- **C4, amended.** The download fails before planning exactly when the
`Content-Length` header is missing (empty) or not parseable as a signed
64-bit integer; any parsed value — including zero and negative sizes —
is passed straight to range planning. -/
theorem downloadFilePlan_size_precondition (cl : String) :
    ((downloadFilePlan 200 cl).isOk ↔ cl ≠ "" ∧ (parseInt64 cl).isSome)
  ∧ downloadFilePlan 200 "0" = .ok (planRanges 0 NUM_PARTS)
  ∧ downloadFilePlan 200 "-5" = .ok (planRanges (-5) NUM_PARTS) := by
  refine ⟨?_, rfl, rfl⟩
  unfold downloadFilePlan getFileSize
  by_cases h : cl = ""
  · simp [h, Except.isOk, Except.toBool]
  · cases hp : parseInt64 cl with
    | none => simp [h, hp, Except.isOk, Except.toBool]
    | some v => simp [h, hp, Except.isOk, Except.toBool]

/-!
## Part fetcher (`downloadPart`, main.go lines 178-250)

`downloadPart` runs a retry loop of up to `MAX_RETRIES` attempts.  Each
attempt creates a GET request carrying `Range: bytes=start-end`, sends
it, and inspects the result:

* request-creation failure: send an error on `errChan` and return
  immediately (no retry and no network call on this attempt);
* transport failure from `Do`: if attempts remain, sleep `attempt`
  seconds and retry; on the last attempt, send an error and return;
* a status other than 206 (partial content) and 200 (OK): same retry
  discipline, closing the body first;
* otherwise: break out of the loop with the response.

After the loop the response body is streamed unchanged into
`part-<partNum>.tmp`; create/copy failures send an error; success sends
the temp-file name on `tempFiles`.  Go's `http` package is outside the
repository, so the result of each attempt is an input: a function from
the attempt number (1-based, like the Go loop counter) to what request
creation and `Do` yield.
-/

/-- The response `downloadPart` sees: a status code and a body. -/
structure HttpResponse where
  statusCode : Nat
  body : List Nat
  deriving DecidableEq

/-- What the HTTP layer does on one attempt. -/
inductive AttemptOutcome
  | newRequestErr (msg : String)
  | doErr (msg : String)
  | response (resp : HttpResponse)
  deriving DecidableEq

/-- The errors `downloadPart` can send on `errChan`: one constructor per
`fmt.Errorf` site, carrying exactly the data its format string
interpolates. -/
inductive PartError
  | createReqFailed (partNum : Nat) (msg : String)
  | getFailed (partNum attempts : Nat) (msg : String)
  | badStatus (partNum statusCode : Nat)
  | createTempFailed (partNum : Nat)
  | writeTempFailed (partNum : Nat)
  deriving DecidableEq

/-- How the retry loop can be left: an error return from inside the loop
(before the `defer resp.Body.Close()` on line 228 is ever registered), a
`break` with the accepted response, or normal loop exit without a break
(possible only when the loop body never ran).  Each exit records the
sleeps performed (in seconds, in order) and the number of `Do` network
calls made. -/
inductive LoopExit
  | errorReturn (e : PartError) (delays : List Nat) (attempts : Nat)
  | broke (resp : HttpResponse) (delays : List Nat) (attempts : Nat)
  | fellThrough (delays : List Nat)
  deriving DecidableEq

/-- The status check of main.go line 212: anything other than 206 and 200
is refused. -/
def acceptableStatus (code : Nat) : Bool := code == 206 || code == 200

/-- The retry loop of main.go lines 185-226, by recursion on the number
of remaining iterations (`fuel`); `retryLoop` starts it at
`attempt = 1` with `fuel = maxRetries`, so `fuel = 0` is exactly the Go
condition `attempt > MAX_RETRIES`. -/
def retryLoopGo (partNum maxRetries : Nat) (env : Nat → AttemptOutcome) :
    Nat → Nat → List Nat → LoopExit
  | 0, _, delays => .fellThrough delays.reverse
  | fuel + 1, attempt, delays =>
    match env attempt with
    | .newRequestErr msg =>
        .errorReturn (.createReqFailed partNum msg) delays.reverse (attempt - 1)
    | .doErr msg =>
        if attempt < maxRetries then
          retryLoopGo partNum maxRetries env fuel (attempt + 1) (attempt :: delays)
        else
          .errorReturn (.getFailed partNum attempt msg) delays.reverse attempt
    | .response resp =>
        if acceptableStatus resp.statusCode then
          .broke resp delays.reverse attempt
        else if attempt < maxRetries then
          retryLoopGo partNum maxRetries env fuel (attempt + 1) (attempt :: delays)
        else
          .errorReturn (.badStatus partNum resp.statusCode) delays.reverse attempt

/-- The whole retry loop of `downloadPart`. -/
def retryLoop (partNum : Nat) (env : Nat → AttemptOutcome) (maxRetries : Nat) :
    LoopExit :=
  retryLoopGo partNum maxRetries env maxRetries 1 []

/-- Local filesystem behaviour for one part: whether `os.Create` and
`io.Copy` succeed. -/
structure FsEnv where
  createOk : Bool
  copyOk : Bool

/-- The temp-file name `fmt.Sprintf("part-%d.tmp", partNum)`. -/
def partFileName (partNum : Nat) : String :=
  "part-" ++ toString partNum ++ ".tmp"

/-- The `Range` header sent on every attempt:
`fmt.Sprintf("bytes=%d-%d", start, end)`. -/
def rangeHeader (start e : Int) : String :=
  "bytes=" ++ toString start ++ "-" ++ toString e

/-- One message sent by `downloadPart` before returning: a temp-file name
on `tempFiles`, or an error on `errChan`. -/
inductive Msg
  | tempFile (name : String)
  | failure (e : PartError)
  deriving DecidableEq

/-- The messages one `downloadPart` invocation sends, in order.  The
server's behaviour is a function of the `Range` header and the attempt
number.  On `fellThrough` the Go code dereferences a nil `resp` at line
228 and panics before sending anything. -/
def downloadPartMsgs (partNum : Nat) (start e : Int) (maxRetries : Nat)
    (server : String → Nat → AttemptOutcome) (fs : FsEnv) : List Msg :=
  match retryLoop partNum (server (rangeHeader start e)) maxRetries with
  | .errorReturn err _ _ => [.failure err]
  | .fellThrough _ => []
  | .broke _ _ _ =>
      if fs.createOk = false then [.failure (.createTempFailed partNum)]
      else if fs.copyOk = false then [.failure (.writeTempFailed partNum)]
      else [.tempFile (partFileName partNum)]

/-- The bytes left in `part-<partNum>.tmp` when `downloadPart` finishes
successfully: `io.Copy` wrote exactly the response body, with no length
validation against the requested range. -/
def downloadPartArtifact (partNum : Nat) (start e : Int) (maxRetries : Nat)
    (server : String → Nat → AttemptOutcome) (fs : FsEnv) :
    Option (List Nat) :=
  match retryLoop partNum (server (rangeHeader start e)) maxRetries with
  | .broke resp _ _ =>
      if fs.createOk && fs.copyOk then some resp.body else none
  | _ => none

/-- The value of `resp` at the `defer resp.Body.Close()` of line 228:
`none` when that line is never reached (the loop returned early),
`some none` when it is reached with `resp` still nil (a nil
dereference), `some (some r)` when it is reached holding response `r`. -/
def respAtDeferredClose : LoopExit → Option (Option HttpResponse)
  | .errorReturn _ _ _ => none
  | .fellThrough _ => some none
  | .broke resp _ _ => some (some resp)

/-- Failure of one attempt as the retry policy sees it: `Do` errors, or
returns a status other than 206 and 200. -/
def attemptFails : AttemptOutcome → Bool
  | .newRequestErr _ => false
  | .doErr _ => true
  | .response resp => !(acceptableStatus resp.statusCode)

/-- The error reported when the failing attempt is the last one. -/
def lastAttemptError (partNum attempt : Nat) : AttemptOutcome → PartError
  | .newRequestErr msg => .createReqFailed partNum msg
  | .doErr msg => .getFailed partNum attempt msg
  | .response resp => .badStatus partNum resp.statusCode

/-- When every attempt in `[attempt, maxRetries]` fails, the loop runs
all remaining iterations, sleeping `k` seconds after each failing
attempt `k < maxRetries`, and returns the last attempt's error after
`maxRetries` network calls. -/
lemma retryLoopGo_all_fail (partNum maxRetries : Nat)
    (env : Nat → AttemptOutcome) :
    ∀ fuel attempt delays,
      fuel + attempt = maxRetries + 1 → 1 ≤ fuel →
      (∀ k, attempt ≤ k → k ≤ maxRetries → attemptFails (env k) = true) →
      retryLoopGo partNum maxRetries env fuel attempt delays
        = .errorReturn (lastAttemptError partNum maxRetries (env maxRetries))
            (delays.reverse ++ List.range' attempt (fuel - 1)) maxRetries := by
  intro fuel
  induction fuel with
  | zero => omega
  | succ f ih =>
    intro attempt delays hsum _ hfail
    have hatt : attempt ≤ maxRetries := by omega
    have hthis := hfail attempt le_rfl hatt
    simp only [retryLoopGo]
    cases henv : env attempt with
    | newRequestErr msg =>
        rw [henv] at hthis
        simp [attemptFails] at hthis
    | doErr msg =>
        simp only []
        by_cases hlt : attempt < maxRetries
        · rw [if_pos hlt]
          rw [ih (attempt + 1) (attempt :: delays) (by omega) (by omega)
            (fun k hk1 hk2 => hfail k (by omega) hk2)]
          have hfre : f - 1 + 1 = f := by omega
          have : List.range' attempt (f + 1 - 1) = attempt :: List.range' (attempt + 1) (f - 1) := by
            rw [show f + 1 - 1 = (f - 1) + 1 by omega]
            rfl
          rw [this]
          simp
        · rw [if_neg hlt]
          have heq : attempt = maxRetries := by omega
          have hf0 : f = 0 := by omega
          subst heq
          rw [henv]
          simp [lastAttemptError, hf0]
    | response resp =>
        simp only []
        have hbad : acceptableStatus resp.statusCode = false := by
          rw [henv] at hthis
          simp [attemptFails] at hthis
          exact hthis
        rw [if_neg (by simp [hbad])]
        by_cases hlt : attempt < maxRetries
        · rw [if_pos hlt]
          rw [ih (attempt + 1) (attempt :: delays) (by omega) (by omega)
            (fun k hk1 hk2 => hfail k (by omega) hk2)]
          have : List.range' attempt (f + 1 - 1) = attempt :: List.range' (attempt + 1) (f - 1) := by
            rw [show f + 1 - 1 = (f - 1) + 1 by omega]
            rfl
          rw [this]
          simp
        · rw [if_neg hlt]
          have heq : attempt = maxRetries := by omega
          have hf0 : f = 0 := by omega
          subst heq
          rw [henv]
          simp [lastAttemptError, hf0]

/-- With at least one iteration of fuel (and the loop invariant
`fuel + attempt = maxRetries + 1`), the loop never exits by falling
through: it always breaks with a response or returns an error. -/
lemma retryLoopGo_ne_fellThrough (partNum maxRetries : Nat)
    (env : Nat → AttemptOutcome) :
    ∀ fuel attempt delays,
      fuel + attempt = maxRetries + 1 → 1 ≤ fuel →
      ∀ ds, retryLoopGo partNum maxRetries env fuel attempt delays
        ≠ .fellThrough ds := by
  intro fuel
  induction fuel with
  | zero => omega
  | succ f ih =>
    intro attempt delays hsum _ ds
    simp only [retryLoopGo]
    cases env attempt with
    | newRequestErr msg => simp
    | doErr msg =>
        by_cases hlt : attempt < maxRetries
        · simp only [if_pos hlt]
          exact ih (attempt + 1) (attempt :: delays) (by omega) (by omega) ds
        · simp [if_neg hlt]
    | response resp =>
        by_cases hok : acceptableStatus resp.statusCode
        · simp [if_pos hok]
        · by_cases hlt : attempt < maxRetries
          · simp only [if_neg hok, if_pos hlt]
            exact ih (attempt + 1) (attempt :: delays) (by omega) (by omega) ds
          · simp [if_neg hok, if_neg hlt]

/-- **C6.** Retry exhaustion: when every attempt fails with a transport
error or a non-success/non-partial-content status, the loop makes exactly
`MAX_RETRIES` network calls, sleeping `attempt` seconds before attempt
`attempt + 1` (delays `[1, 2]`), then reports an error carrying the part
index and the last attempt's error; and the result never depends on what
the network would do after attempt `MAX_RETRIES`, so no further network
calls are made. -/
theorem downloadPart_retry_exhaustion (partNum : Nat)
    (env : Nat → AttemptOutcome)
    (hfail : ∀ k, 1 ≤ k → k ≤ MAX_RETRIES → attemptFails (env k) = true) :
    retryLoop partNum env MAX_RETRIES
      = .errorReturn (lastAttemptError partNum MAX_RETRIES (env MAX_RETRIES))
          [1, 2] MAX_RETRIES
  ∧ (∀ env' : Nat → AttemptOutcome,
      (∀ k, k ≤ MAX_RETRIES → env' k = env k) →
      retryLoop partNum env' MAX_RETRIES = retryLoop partNum env MAX_RETRIES) := by
  have hmain := retryLoopGo_all_fail partNum MAX_RETRIES env MAX_RETRIES 1 []
    (by decide) (by decide) (fun k hk1 hk2 => hfail k hk1 hk2)
  constructor
  · exact hmain
  · intro env' hagree
    have hfail' : ∀ k, 1 ≤ k → k ≤ MAX_RETRIES → attemptFails (env' k) = true := by
      intro k hk1 hk2
      rw [hagree k hk2]
      exact hfail k hk1 hk2
    have hmain' := retryLoopGo_all_fail partNum MAX_RETRIES env' MAX_RETRIES 1 []
      (by decide) (by decide) (fun k hk1 hk2 => hfail' k hk1 hk2)
    rw [retryLoop, hmain', retryLoop, hmain, hagree MAX_RETRIES (by decide)]

/-- Witness for `downloadPart_retry_exhaustion`: a server refusing every
connection makes part 2 fail with `part 2: failed to perform GET request
after 3 attempts: connection refused` after sleeps of 1 and 2 seconds. -/
theorem downloadPart_retry_exhaustion_witness :
    retryLoop 2 (fun _ => .doErr "connection refused") MAX_RETRIES
      = .errorReturn (.getFailed 2 3 "connection refused") [1, 2] 3 :=
  (downloadPart_retry_exhaustion 2 (fun _ => .doErr "connection refused")
    (fun _ _ _ => rfl)).1

/-- **C9, counterexample.** Once the context is cancelled, every `Do`
call fails immediately with the context error — yet the fetcher still
performs all `MAX_RETRIES = 3` network calls with retry sleeps of 1 and 2
seconds, and the final error is the ordinary retrieval-failure error
(`part %d: failed to perform GET request after %d attempts`), not a
distinct cancellation error. -/
theorem downloadPart_cancelled_still_retries :
    retryLoop 1 (fun _ => .doErr "context deadline exceeded") MAX_RETRIES
      = .errorReturn (.getFailed 1 3 "context deadline exceeded") [1, 2] 3 := by
  decide

/-- **C9, amended.** When the caller's context is cancelled during a part
fetch, each attempt's `Do` call fails fast with the context error, but
`downloadPart` does not abort: it sleeps and retries until all
`MAX_RETRIES` attempts are spent and then reports the same
retrieval-failure error used for any transport failure, wrapping the
context error's message; no cancellation-specific error exists. -/
theorem downloadPart_cancellation_behaviour (partNum : Nat) (msg : String)
    (env : Nat → AttemptOutcome)
    (hcancel : ∀ k, 1 ≤ k → k ≤ MAX_RETRIES → env k = .doErr msg) :
    retryLoop partNum env MAX_RETRIES
      = .errorReturn (.getFailed partNum MAX_RETRIES msg) [1, 2] MAX_RETRIES := by
  have hmain := retryLoopGo_all_fail partNum MAX_RETRIES env MAX_RETRIES 1 []
    (by decide) (by decide)
    (fun k hk1 hk2 => by rw [hcancel k hk1 hk2]; rfl)
  rw [retryLoop, hmain, hcancel MAX_RETRIES (by decide) le_rfl]
  rfl

/-- Witness for `downloadPart_cancellation_behaviour` with the deadline
error of a five-minute timeout expiring. -/
theorem downloadPart_cancellation_behaviour_witness :
    retryLoop 4 (fun _ => .doErr "context canceled") MAX_RETRIES
      = .errorReturn (.getFailed 4 3 "context canceled") [1, 2] 3 :=
  downloadPart_cancellation_behaviour 4 "context canceled"
    (fun _ => .doErr "context canceled") (fun _ _ _ => rfl)

/-- **C10.** Every terminating `downloadPart` invocation sends exactly
one message in total — one temp-file name on success or one error on
failure — and the deferred `resp.Body.Close()` after the retry loop is
never reached with a nil response, because `MAX_RETRIES ≥ 1` keeps the
loop from falling through without a break. -/
theorem downloadPart_one_message (partNum : Nat) (start e : Int)
    (server : String → Nat → AttemptOutcome) (fs : FsEnv) :
    (downloadPartMsgs partNum start e MAX_RETRIES server fs).length = 1
  ∧ respAtDeferredClose
      (retryLoop partNum (server (rangeHeader start e)) MAX_RETRIES)
      ≠ some none
  ∧ 1 ≤ MAX_RETRIES := by
  have hnf := retryLoopGo_ne_fellThrough partNum MAX_RETRIES
    (server (rangeHeader start e)) MAX_RETRIES 1 [] (by decide) (by decide)
  refine ⟨?_, ?_, by decide⟩
  · rw [downloadPartMsgs]
    cases hexit : retryLoop partNum (server (rangeHeader start e)) MAX_RETRIES with
    | errorReturn err ds a => rfl
    | broke resp ds a =>
        cases fs with
        | mk c w =>
          cases c <;> cases w <;> rfl
    | fellThrough ds => exact absurd hexit (hnf ds)
  · cases hexit : retryLoop partNum (server (rangeHeader start e)) MAX_RETRIES with
    | errorReturn err ds a => simp [respAtDeferredClose]
    | broke resp ds a => simp [respAtDeferredClose]
    | fellThrough ds => exact absurd hexit (hnf ds)

/-- The server reply used in the C5 counterexample: a full-content 200
response whose 10-byte body ignores the requested range. -/
def fullBody : List Nat := [0, 1, 2, 3, 4, 5, 6, 7, 8, 9]

/-- A server that answers every request, whatever its `Range` header,
with `200 OK` and the full 10-byte content. -/
def server200 : String → Nat → AttemptOutcome :=
  fun _ _ => .response ⟨200, fullBody⟩

/-- **C5, counterexample.** For the requested range `[0, 4]` (5 bytes), a
full-content 200 response with a 10-byte body is accepted on the first
attempt and its entire body is written to the artifact: the fetch
succeeds with an artifact of 10 bytes, not `end - start + 1 = 5`, and no
mismatch is rejected. -/
theorem downloadPart_accepts_mismatched_length :
    downloadPartMsgs 1 0 4 MAX_RETRIES server200 ⟨true, true⟩
      = [.tempFile (partFileName 1)]
  ∧ downloadPartArtifact 1 0 4 MAX_RETRIES server200 ⟨true, true⟩
      = some fullBody
  ∧ (fullBody.length : Int) ≠ 4 - 0 + 1 := by
  refine ⟨by decide, by decide, by decide⟩

/-- **C5, amended.** The fetcher accepts any response with status 200 or
206; whenever the retry loop breaks with a response and the local file
operations succeed, the part artifact contains exactly the response body
— whatever its length — with no validation against the requested range
length `e - start + 1`. -/
theorem downloadPart_artifact_is_body (partNum : Nat) (start e : Int)
    (maxRetries : Nat) (server : String → Nat → AttemptOutcome)
    (resp : HttpResponse) (delays : List Nat) (attempts : Nat)
    (hloop : retryLoop partNum (server (rangeHeader start e)) maxRetries
      = .broke resp delays attempts) :
    downloadPartArtifact partNum start e maxRetries server ⟨true, true⟩
      = some resp.body
  ∧ acceptableStatus 200 = true ∧ acceptableStatus 206 = true := by
  refine ⟨?_, rfl, rfl⟩
  rw [downloadPartArtifact, hloop]
  rfl

/-- Witness for `downloadPart_artifact_is_body` at the permissive
10-byte 200 server and range `[0, 4]`. -/
theorem downloadPart_artifact_is_body_witness :
    downloadPartArtifact 3 0 4 MAX_RETRIES server200 ⟨true, true⟩
      = some fullBody :=
  (downloadPart_artifact_is_body 3 0 4 MAX_RETRIES server200
    ⟨200, fullBody⟩ [] 1 (by decide)).1

/-!
## Orchestrator fan-in and assembly (`downloadFile`, main.go lines 288-337)

`downloadFile` launches one goroutine per part over two buffered
channels, barrier-waits (`wg.Wait`), closes the channels, and, if
`errChan` holds anything, returns the FIRST error in the channel: the
error of whichever failing part completed first.  That completion order
is chosen by the scheduler, not by part index, so it is an input here:
`errors` is the content of `errChan` in arrival order.  Only when no
error arrived does the code create the output file and concatenate
`part-1.tmp .. part-4.tmp` in ascending index order.
-/

/-- The part index carried by an error (the `partNum` every `fmt.Errorf`
in `downloadPart` interpolates). -/
def errPartNum : PartError → Nat
  | .createReqFailed p _ => p
  | .getFailed p _ _ => p
  | .badStatus p _ => p
  | .createTempFailed p => p
  | .writeTempFailed p => p

/-- The post-barrier tail of `downloadFile`: given the content of
`errChan` in arrival order and the bytes of each `part-<i>.tmp`, return
the first arrived error — before any output file is created — or, when
no error arrived, the assembled output (parts 1 through `NUM_PARTS` in
ascending index order). -/
def downloadFileAfterBarrier (errors : List PartError)
    (partsContent : Nat → List Nat) : Except PartError (List Nat) :=
  match errors with
  | e :: _ => .error e
  | [] => .ok (((List.range NUM_PARTS).map fun i => partsContent (i + 1)).flatten)

/-- **C7, counterexample.** Parts 1 and 3 both fail, but part 3's error
reaches `errChan` first (it failed fast while part 1 was sleeping between
retries — a completion order the scheduler may produce).  The surfaced
error is part 3's, although the lowest failing index is 1. -/
theorem downloadFile_error_not_lowest_index :
    downloadFileAfterBarrier
        [.getFailed 3 3 "connection reset", .getFailed 1 3 "connection reset"]
        (fun _ => [])
      = .error (.getFailed 3 3 "connection reset")
  ∧ errPartNum (.getFailed 3 3 "connection reset") = 3
  ∧ errPartNum (.getFailed 1 3 "connection reset") = 1 :=
  ⟨rfl, rfl, rfl⟩

/-- **C7, amended.** All-or-nothing holds: when at least one part fails,
no output file is created and exactly one error is surfaced — but it is
the first error in completion (channel-arrival) order, which need not
belong to the lowest-index failing part. -/
theorem downloadFile_all_or_nothing (e : PartError) (rest : List PartError)
    (partsContent : Nat → List Nat) :
    downloadFileAfterBarrier (e :: rest) partsContent = .error e
  ∧ ∀ bytes, downloadFileAfterBarrier (e :: rest) partsContent ≠ .ok bytes := by
  refine ⟨rfl, fun bytes h => ?_⟩
  simp [downloadFileAfterBarrier] at h

/-- Witness for `downloadFile_all_or_nothing` on a single write failure
of part 2. -/
theorem downloadFile_all_or_nothing_witness :
    downloadFileAfterBarrier [.writeTempFailed 2] (fun _ => [7])
      = .error (.writeTempFailed 2) :=
  (downloadFile_all_or_nothing (.writeTempFailed 2) [] (fun _ => [7])).1

/-!
## Destination naming (`getFileHeaders` line 89 and `getFileName`,
main.go lines 130-147)

`downloadFile` names the output file (line 310) from the disposition
value `getFileHeaders` extracted and from the URL.  Two code details
decide the claim:

* `getFileHeaders` reads the header under the MISSPELLED key
  `"Content-Dispostion"` (line 89).  Go's `Header.Get` canonicalizes
  capitalization only, never spelling, so this key is distinct from the
  response's real `Content-Disposition` header: for every response that
  carries only the correctly spelled header the extracted value is `""`,
  and the disposition branch of `getFileName` cannot run.
* `getFileName` falls back to `path.Base` of the whole URL string, and
  Go's `path.Base` never returns the empty string (`"."` for empty
  input, `"/"` for all-slash input), so the random-name branch is
  unreachable too.

The response's headers are an input mapping each canonical header key to
its value (`""` when absent), exactly what `Header.Get` yields.
`mime.ParseMediaType` is a Go standard-library call, embedded as the
input `dispName` (the `filename` parameter when the value parses and
carries one, `none` otherwise); `rand.Int64()` is embedded as the input
`randVal`.
-/

/-- Faithful embedding of Go `path.Base`: `"."` for empty input;
otherwise trailing slashes are stripped, everything up to the last slash
is dropped, and an all-slash input gives `"/"`. -/
def pathBase (p : String) : String :=
  if p = "" then "."
  else
    let r := p.toList.reverse.dropWhile (fun c => c == '/')
    if r = [] then "/"
    else String.mk (r.takeWhile (fun c => c != '/')).reverse

/-- Shallow embedding of `getFileName` (main.go lines 130-147), taking
the disposition value its caller hands it. -/
def getFileName (dispName : String → Option String)
    (contentDisposition url : String) (randVal : Int) : String :=
  match (if contentDisposition ≠ "" then dispName contentDisposition else none) with
  | some filename => filename
  | none =>
    let filename := pathBase url
    if filename ≠ "" then filename
    else "random" ++ toString randVal

/-- The content-disposition extraction of `getFileHeaders` (main.go line
89): it reads the misspelled key `"Content-Dispostion"`, not the real
header name `"Content-Disposition"`. -/
def getFileHeadersCd (headers : String → String) : String :=
  headers "Content-Dispostion"

/-- The name `downloadFile` gives the output file (main.go line 310):
`getFileName` applied to the disposition value `getFileHeaders`
extracted and to the URL. -/
def downloadFileName (dispName : String → Option String)
    (headers : String → String) (url : String) (randVal : Int) : String :=
  getFileName dispName (getFileHeadersCd headers) url randVal

/-- The head of a `dropWhile` result does not satisfy the predicate. -/
lemma dropWhile_head_not (pr : Char → Bool) :
    ∀ (l : List Char) c t, l.dropWhile pr = c :: t → pr c = false := by
  intro l
  induction l with
  | nil =>
      intro c t h
      simp [List.dropWhile] at h
  | cons a l ih =>
      intro c t h
      rw [List.dropWhile_cons] at h
      by_cases ha : pr a
      · rw [if_pos ha] at h
        exact ih c t h
      · rw [if_neg ha] at h
        cases h
        simpa using ha

/-- Go's `path.Base` never returns the empty string. -/
lemma pathBase_ne_empty (p : String) : pathBase p ≠ "" := by
  unfold pathBase
  by_cases h : p = ""
  · simp [h]
  · rw [if_neg h]
    cases hr : p.toList.reverse.dropWhile (fun c => c == '/') with
    | nil => simp [hr]
    | cons c t =>
        simp only [hr]
        rw [if_neg (by simp)]
        have hc : (c == '/') = false := dropWhile_head_not _ _ c t hr
        rw [List.takeWhile_cons, if_pos (by simp [bne, hc])]
        intro hcontra
        have hdata := congrArg String.data hcontra
        simp at hdata

/-- With an empty disposition value, or one carrying no filename, the
name falls back to `path.Base` of the URL (the random branch is guarded
by `pathBase url ≠ ""`, which always holds). -/
lemma getFileName_no_disposition (dispName : String → Option String)
    (cd url : String) (randVal : Int) (h : cd = "" ∨ dispName cd = none) :
    getFileName dispName cd url randVal = pathBase url := by
  have hnone : (if cd ≠ "" then dispName cd else none) = none := by
    rcases h with h | h
    · simp [h]
    · by_cases hcd : cd = "" <;> simp [hcd, h]
  simp [getFileName, hnone, pathBase_ne_empty url]

/-- With a nonempty disposition value that yields a filename, the name
is that filename. -/
lemma getFileName_disposition (dispName : String → Option String)
    (cd url : String) (randVal : Int) (f : String)
    (hcd : cd ≠ "") (hf : dispName cd = some f) :
    getFileName dispName cd url randVal = f := by
  simp [getFileName, hcd, hf]

/-- The headers of the C8 counterexample response: a real
`Content-Disposition` header supplying the filename parameter `a.txt`,
and nothing under any other key — in particular nothing under the
misspelled key `getFileHeaders` reads. -/
def respHeaders : String → String :=
  fun k => if k = "Content-Disposition" then "attachment; filename=a.txt" else ""

/-- `mime.ParseMediaType`'s filename extraction on the values this
counterexample uses: the disposition value above parses to the filename
`a.txt`. -/
def parseDisp : String → Option String :=
  fun cd => if cd = "attachment; filename=a.txt" then some "a.txt" else none

/-- **C8, counterexample.** A response whose `Content-Disposition` header
supplies the filename parameter `a.txt` does NOT yield that name:
`getFileHeaders` reads the misspelled key `"Content-Dispostion"`,
extracts `""`, and the file is named `report.pdf` from the URL.  And
with neither a disposition nor a usable URL path segment the name is
`"."` (the `path.Base` degenerate result), not a randomized
placeholder. -/
theorem downloadFileName_ignores_disposition :
    respHeaders "Content-Disposition" = "attachment; filename=a.txt"
  ∧ parseDisp "attachment; filename=a.txt" = some "a.txt"
  ∧ getFileHeadersCd respHeaders = ""
  ∧ downloadFileName parseDisp respHeaders "https://example.com/report.pdf" 7
      = "report.pdf"
  ∧ ("report.pdf" : String) ≠ "a.txt"
  ∧ downloadFileName parseDisp (fun _ => "") "" 42 = "."
  ∧ ("." : String) ≠ "random" ++ toString (42 : Int) :=
  ⟨by decide, by decide, by decide, by decide, by decide, by decide, by decide⟩

/-- **C8, amended.** End-to-end naming: for every response with nothing
under the misspelled key `"Content-Dispostion"` — in particular every
response carrying only the real `Content-Disposition` header, whatever
filename it supplies — the output name is `path.Base` of the whole URL
string; only a header sent under the literal misspelled key can reach
the disposition branch.  `path.Base` never returns the empty string
(degenerate URLs give `"."` or `"/"`), so naming never fails, but for
the same reason the randomized-placeholder branch is unreachable. -/
theorem downloadFileName_fallback_chain (dispName : String → Option String)
    (headers : String → String) (url : String) (randVal : Int) :
    (headers "Content-Dispostion" = "" →
        downloadFileName dispName headers url randVal = pathBase url)
  ∧ (∀ f, headers "Content-Dispostion" ≠ "" →
        dispName (headers "Content-Dispostion") = some f →
        downloadFileName dispName headers url randVal = f)
  ∧ pathBase url ≠ ""
  ∧ pathBase "https://example.com/report.pdf" = "report.pdf" := by
  unfold downloadFileName getFileHeadersCd
  refine ⟨?_, ?_, pathBase_ne_empty url, by decide⟩
  · intro hmiss
    exact getFileName_no_disposition dispName _ url randVal (Or.inl hmiss)
  · intro f hne hf
    exact getFileName_disposition dispName _ url randVal f hne hf

/-- Witness for `downloadFileName_fallback_chain`: a response with no
misspelled-key header names the file from the URL's final segment. -/
theorem downloadFileName_fallback_chain_witness :
    downloadFileName (fun _ => none) (fun _ => "")
        "https://example.com/report.pdf" 0
      = pathBase "https://example.com/report.pdf"
  ∧ pathBase "https://example.com/report.pdf" = "report.pdf" :=
  ⟨(downloadFileName_fallback_chain (fun _ => none) (fun _ => "")
      "https://example.com/report.pdf" 0).1 rfl,
    (downloadFileName_fallback_chain (fun _ => none) (fun _ => "")
      "https://example.com/report.pdf" 0).2.2.2⟩

end Downloader
